import Mathlib

/-!
Verification of the discussion-board core of nezaj/instant-mini-reddit.

The repository contains two data-model variants:

* the linked-entity variant (src/unnamed/part_000): votes are first-class
  `votes` entities `{ id, userId, voteType }` linked to one post or one
  comment via the `votePost` / `voteComment` links, mutated by `handleVote`;
* the array variant (src/src/app/page.tsx): posts and comments carry
  `upvotes` / `downvotes` arrays of user identifiers, mutated by
  `handlePostVote` / `handleCommentVote`.

Both variants reconstruct the comment display from the flat comment list of
one post with the same two filters (`topLevelComments`, `replies`).

Each definition below embeds one source function; the embedding choices are
recorded in the doc comments.
-/

namespace InstaReddit

/-- The two kinds of vote target (the `targetType: 'post' | 'comment'`
parameter of `handleVote` and the `votePost` / `voteComment` link labels). -/
inductive TargetType where
  | post
  | comment
deriving DecidableEq

/-- A row of the `votes` table of the linked-entity variant.  The schema
(src/unnamed/part_000 lines 25-28) gives a vote `userId` and `voteType`
fields (voteType is declared as a plain string); `id` is the entity key.
The forward `has: one` link of the `votePost` / `voteComment` links is
folded into the row as `targetId` / `targetType`: a vote is linked to
exactly one target, and `.link` overwrites that single slot. -/
structure Vote where
  id : String
  userId : String
  voteType : String
  targetId : String
  targetType : TargetType
deriving DecidableEq

/-- The votes reachable from a target through the reverse `votes` link,
i.e. the `post.votes` / `comment.votes` collections the queries load. -/
def votesFor (ledger : List Vote) (targetId : String) (tt : TargetType) : List Vote :=
  ledger.filter (fun v => decide (v.targetId = targetId) && decide (v.targetType = tt))

/-- Embeds `getUserVote` (src/unnamed/part_000 lines 945-947):
`votes.find(v => v.userId === userId) || null`, with the absent case
rendered as `none`. -/
def getUserVote (votes : List Vote) (userId : String) : Option Vote :=
  votes.find? (fun v => decide (v.userId = userId))

/-- Embeds `getVoteCount` (src/unnamed/part_000 lines 939-943):
the number of votes whose `voteType` is `'up'` minus the number whose
`voteType` is `'down'`, as an integer. -/
def getVoteCount (votes : List Vote) : Int :=
  ((votes.filter (fun v => decide (v.voteType = "up"))).length : Int)
    - ((votes.filter (fun v => decide (v.voteType = "down"))).length : Int)

/-- Embeds `handleVote` (src/unnamed/part_000 lines 949-976; the copy at
lines 93-113 differs only in using `.create` instead of `.update` for the
new entity).  The `db.transact` operations are interpreted on the votes
table: `tx.votes[i].delete()` removes the row with id `i`;
`tx.votes[i].update({...})` writes the given fields to the row with id `i`,
creating the row when absent (upsert); `.link` sets the single target slot.
The fresh identifier produced by `id()` is passed in as `freshId`. -/
def handleVote (ledger : List Vote) (targetId userId voteType : String)
    (targetType : TargetType) (existingVote : Option Vote) (freshId : String) :
    List Vote :=
  match existingVote with
  | some ev =>
    if ev.voteType = voteType then
      ledger.filter (fun v => decide (v.id ≠ ev.id))
    else
      ledger.map (fun v => if v.id = ev.id then { v with voteType := voteType } else v)
  | none =>
    let newVote : Vote :=
      { id := freshId, userId := userId, voteType := voteType
        targetId := targetId, targetType := targetType }
    if ledger.any (fun v => decide (v.id = freshId)) then
      ledger.map (fun v => if v.id = freshId then newVote else v)
    else
      ledger ++ [newVote]

/-- One `castVote` interaction as the UI performs it: the caller reads the
current vote of `userId` on the target from the snapshot (`getUserVote` over
the target's loaded votes, as in `VoteButtons`/`PostDetail`) and passes it to
`handleVote` as `existingVote`. -/
def castVote (ledger : List Vote) (targetId : String) (targetType : TargetType)
    (userId voteType freshId : String) : List Vote :=
  handleVote ledger targetId userId voteType targetType
    (getUserVote (votesFor ledger targetId targetType) userId) freshId

/-- The identifiers of the rows of the votes table. -/
def voteIds (ledger : List Vote) : List String :=
  ledger.map (fun v => v.id)

/-- The votes of one user on one target (by the one-vote invariant there
should be at most one). -/
def userVotesFor (ledger : List Vote) (targetId : String) (tt : TargetType)
    (userId : String) : List Vote :=
  (votesFor ledger targetId tt).filter (fun v => decide (v.userId = userId))

/-- The observable vote state of one (user, target) pair: the voteType of
the user's current vote, or `none`. -/
def userVoteState (ledger : List Vote) (targetId : String) (tt : TargetType)
    (userId : String) : Option String :=
  (getUserVote (votesFor ledger targetId tt) userId).map (fun v => v.voteType)

/-- One transition of the three-state toggle automaton of spec section 4.2 on
states \x7bno-vote, upvoted, downvoted\x7d: no vote creates one, the same
direction retracts, the opposite direction switches. -/
def toggleStep (s : Option String) (d : String) : Option String :=
  match s with
  | none => some d
  | some v => if v = d then none else some d

/-- A sequence of castVote calls on one (user, target) pair, each conditioned
on the vote state left by the previous call; every step carries its direction
and the fresh identifier its `id()` call would produce. -/
def castVoteSeq (ledger : List Vote) (targetId : String) (tt : TargetType)
    (userId : String) : List (String × String) → List Vote
  | [] => ledger
  | (d, fid) :: rest =>
    castVoteSeq (castVote ledger targetId tt userId d fid) targetId tt userId rest

/-- Modelled from the spec: section 6 treats the sync transport as an opaque
reliable broadcast that "delivers remote mutation batches back into the
Entity Graph Store"; convergence of two replicas that each committed one
`handleVote` transaction is the shared ledger with both recorded commands
applied, each with the vote its replica had observed. -/
def converge2 (ledger : List Vote) (targetId : String) (tt : TargetType)
    (userId voteType : String) (obsA obsB : Option Vote) (fidA fidB : String) :
    List Vote :=
  handleVote (handleVote ledger targetId userId voteType tt obsA fidA)
    targetId userId voteType tt obsB fidB

/-! ### Basic facts about the votes table -/

theorem mem_voteIds {L : List Vote} {i : String} :
    i ∈ voteIds L ↔ ∃ v ∈ L, v.id = i := by
  simp [voteIds]

theorem mem_votesFor {L : List Vote} {t : String} {tt : TargetType} {v : Vote} :
    v ∈ votesFor L t tt ↔ v ∈ L ∧ v.targetId = t ∧ v.targetType = tt := by
  simp [votesFor, List.mem_filter, and_assoc]

theorem getUserVote_eq_some {vs : List Vote} {u : String} {ev : Vote}
    (h : getUserVote vs u = some ev) : ev ∈ vs ∧ ev.userId = u := by
  refine ⟨List.mem_of_find?_eq_some h, ?_⟩
  have := List.find?_some h
  exact of_decide_eq_true this

theorem any_id_eq_false {L : List Vote} {fid : String} (hf : fid ∉ voteIds L) :
    L.any (fun v => decide (v.id = fid)) = false := by
  rw [List.any_eq_false]
  intro v hv hdv
  exact hf (mem_voteIds.mpr ⟨v, hv, of_decide_eq_true hdv⟩)

/-! ### Claim C1: the three-branch toggle of castVote / handleVote -/

/-- Claim C1: for every `castVote` call (which reads the current vote of the
user on the target and hands it to `handleVote`), the three toggle branches
behave as specified: with no existing vote, a new Vote entity carrying the
given voteType and linked to the target is appended; with an existing vote of
the same voteType, exactly that entity is deleted and every other vote is
kept; with an existing vote of the opposite voteType, its voteType is updated
in place while its identity (id), author and target link are unchanged, the
table keeps the same row identities, and every other vote is untouched. -/
theorem castVote_three_branches (L : List Vote) (t : String) (tt : TargetType)
    (u d fid : String) (hf : fid ∉ voteIds L) :
    (getUserVote (votesFor L t tt) u = none →
        castVote L t tt u d fid
          = L ++ [{ id := fid, userId := u, voteType := d,
                    targetId := t, targetType := tt }])
    ∧ (∀ ev, getUserVote (votesFor L t tt) u = some ev → ev.voteType = d →
        ∀ v, v ∈ castVote L t tt u d fid ↔ v ∈ L ∧ v.id ≠ ev.id)
    ∧ (∀ ev, getUserVote (votesFor L t tt) u = some ev → ev.voteType ≠ d →
        { ev with voteType := d } ∈ castVote L t tt u d fid
        ∧ voteIds (castVote L t tt u d fid) = voteIds L
        ∧ ∀ v ∈ L, v.id ≠ ev.id → v ∈ castVote L t tt u d fid) := by
  refine ⟨?_, ?_, ?_⟩
  · intro hobs
    rw [castVote, hobs]
    simp only [handleVote, any_id_eq_false hf, Bool.false_eq_true, if_false]
  · intro ev hobs hvt v
    rw [castVote, hobs]
    simp [handleVote, hvt, List.mem_filter]
  · intro ev hobs hvt
    have hev : ev ∈ L := (mem_votesFor.mp (getUserVote_eq_some hobs).1).1
    rw [castVote, hobs]
    simp only [handleVote, hvt, if_false]
    refine ⟨?_, ?_, ?_⟩
    · exact List.mem_map.mpr ⟨ev, hev, by simp⟩
    · rw [voteIds, voteIds, List.map_map]
      refine List.map_congr_left (fun v hv => ?_)
      by_cases h : v.id = ev.id <;> simp [h]
    · intro v hv hne
      exact List.mem_map.mpr ⟨v, hv, by simp [hne]⟩

/-- Witness for C1: a ledger with one up-vote by a second user; the three
branches evaluated at concrete inputs via the theorem. -/
theorem castVote_three_branches_witness :
    castVote [{ id := "w1", userId := "u2", voteType := "up",
                targetId := "p1", targetType := TargetType.post }]
        "p1" TargetType.post "u1" "up" "w2"
      = [{ id := "w1", userId := "u2", voteType := "up",
           targetId := "p1", targetType := TargetType.post },
         { id := "w2", userId := "u1", voteType := "up",
           targetId := "p1", targetType := TargetType.post }] := by
  have h := castVote_three_branches
    [{ id := "w1", userId := "u2", voteType := "up",
       targetId := "p1", targetType := TargetType.post }]
    "p1" TargetType.post "u1" "up" "w2" (by decide)
  exact h.1 (by decide)

/-! ### Claim C3: idempotency of the vote command under retry -/

/-- Claim C3: re-applying the identical `handleVote` command — same targetId,
userId, voteType, target kind, the same previously observed vote
`existingVote`, and the same generated vote identifier — to the state its
first application produced yields that same state again: the command is
conditioned on the previously observed vote, not on the vote current at
re-execution time, so a replay never double-toggles.  The observed vote is
required to be genuine (absent, or a row of the ledger). -/
theorem handleVote_idempotent (L : List Vote) (t u d fid : String)
    (tt : TargetType) (obs : Option Vote)
    (hobs : obs = none ∨ ∃ ev, obs = some ev ∧ ev ∈ L) :
    handleVote (handleVote L t u d tt obs fid) t u d tt obs fid
      = handleVote L t u d tt obs fid := by
  rcases hobs with hobs | ⟨ev, hobs, hev⟩
  · subst hobs
    simp only [handleVote]
    by_cases hany : L.any (fun v => decide (v.id = fid)) = true
    · rw [if_pos hany]
      rcases List.any_eq_true.mp hany with ⟨v0, hv0, hdv0⟩
      have hmem : (L.map (fun v => if v.id = fid then
            Vote.mk fid u d t tt else v)).any
            (fun v => decide (v.id = fid)) = true := by
        refine List.any_eq_true.mpr ?_
        refine ⟨_, List.mem_map.mpr ⟨v0, hv0, rfl⟩, ?_⟩
        simp [of_decide_eq_true hdv0]
      rw [if_pos hmem, List.map_map]
      refine List.map_congr_left (fun v hv => ?_)
      by_cases h : v.id = fid <;> simp [h]
    · rw [if_neg hany]
      have hall := List.any_eq_false.mp (Bool.eq_false_iff.mpr hany)
      have hmem : ((L ++ [Vote.mk fid u d t tt]).any
            (fun v => decide (v.id = fid))) = true := by
        refine List.any_eq_true.mpr
          ⟨Vote.mk fid u d t tt, List.mem_append_right _ (by simp), by simp⟩
      rw [if_pos hmem, List.map_append]
      congr 1
      · refine (List.map_congr_left (fun v hv => ?_)).trans (List.map_id L)
        have : v.id ≠ fid := fun h => hall v hv (decide_eq_true h)
        simp [this]
      · simp
  · subst hobs
    simp only [handleVote]
    by_cases hvt : ev.voteType = d
    · rw [if_pos hvt, if_pos hvt, List.filter_filter]
      exact List.filter_congr (fun v hv => by simp)
    · rw [if_neg hvt, if_neg hvt, List.map_map]
      refine List.map_congr_left (fun v hv => ?_)
      by_cases h : v.id = ev.id <;> simp [h]

/-- Witness for C3: replaying a direction-switch command (observed up-vote,
command down) on the state its first application produced. -/
theorem handleVote_idempotent_witness :
    handleVote
        (handleVote
          [{ id := "v1", userId := "u1", voteType := "up",
             targetId := "p1", targetType := TargetType.post }]
          "p1" "u1" "down" TargetType.post
          (some { id := "v1", userId := "u1", voteType := "up",
                  targetId := "p1", targetType := TargetType.post }) "v9")
        "p1" "u1" "down" TargetType.post
        (some { id := "v1", userId := "u1", voteType := "up",
                targetId := "p1", targetType := TargetType.post }) "v9"
      = handleVote
          [{ id := "v1", userId := "u1", voteType := "up",
             targetId := "p1", targetType := TargetType.post }]
          "p1" "u1" "down" TargetType.post
          (some { id := "v1", userId := "u1", voteType := "up",
                  targetId := "p1", targetType := TargetType.post }) "v9" :=
  handleVote_idempotent _ "p1" "u1" "down" "v9" TargetType.post _
    (Or.inr ⟨_, rfl, by decide⟩)

/-! ### Claim C5: vote score -/

/-- Claim C5: for every collection of votes on a target, `getVoteCount`
equals the number of votes with voteType `'up'` minus the number with
voteType `'down'`, and recomputing it over the same collection (read in any
order, i.e. over any permutation) yields the same value; the input is not
mutated (the function is pure). -/
theorem getVoteCount_eq_up_sub_down (votes : List Vote) :
    getVoteCount votes
        = (votes.countP (fun v => decide (v.voteType = "up")) : Int)
          - (votes.countP (fun v => decide (v.voteType = "down")) : Int)
      ∧ ∀ votes2 : List Vote, votes.Perm votes2 →
          getVoteCount votes = getVoteCount votes2 := by
  constructor
  · simp [getVoteCount, List.countP_eq_length_filter]
  · intro votes2 h
    simp [getVoteCount, ← List.countP_eq_length_filter, h.countP_eq]

/-- Witness for C5 at a concrete vote collection. -/
theorem getVoteCount_eq_up_sub_down_witness :
    getVoteCount
        [{ id := "v1", userId := "u1", voteType := "up",
           targetId := "p1", targetType := TargetType.post },
         { id := "v2", userId := "u2", voteType := "down",
           targetId := "p1", targetType := TargetType.post },
         { id := "v3", userId := "u3", voteType := "up",
           targetId := "p1", targetType := TargetType.post }]
      = 1
    ∧ getVoteCount
        [{ id := "v1", userId := "u1", voteType := "up",
           targetId := "p1", targetType := TargetType.post },
         { id := "v2", userId := "u2", voteType := "down",
           targetId := "p1", targetType := TargetType.post },
         { id := "v3", userId := "u3", voteType := "up",
           targetId := "p1", targetType := TargetType.post }]
      = getVoteCount
        [{ id := "v2", userId := "u2", voteType := "down",
           targetId := "p1", targetType := TargetType.post },
         { id := "v3", userId := "u3", voteType := "up",
           targetId := "p1", targetType := TargetType.post },
         { id := "v1", userId := "u1", voteType := "up",
           targetId := "p1", targetType := TargetType.post }] := by
  have h := getVoteCount_eq_up_sub_down
    [{ id := "v1", userId := "u1", voteType := "up",
       targetId := "p1", targetType := TargetType.post },
     { id := "v2", userId := "u2", voteType := "down",
       targetId := "p1", targetType := TargetType.post },
     { id := "v3", userId := "u3", voteType := "up",
       targetId := "p1", targetType := TargetType.post }]
  constructor
  · rw [h.1]
    decide
  · exact h.2 _ (by decide)

/-! ### Generic list lemmas used by the ledger invariant -/

theorem find?_eq_head?_filter {α : Type} (p : α → Bool) (l : List α) :
    l.find? p = (l.filter p).head? := by
  induction l with
  | nil => rfl
  | cons a l ih =>
    cases h : p a
    · rw [List.find?_cons_of_neg _ (by simp [h]), List.filter_cons, h]
      exact ih
    · rw [List.find?_cons_of_pos _ h, List.filter_cons, h]
      rfl

theorem mem_length_le_one {α : Type} {l : List α} {a : α}
    (h1 : l.length ≤ 1) (ha : a ∈ l) : l = [a] := by
  cases l with
  | nil => cases ha
  | cons b t =>
    cases t with
    | nil =>
      rcases List.mem_singleton.mp ha with rfl
      rfl
    | cons c t2 => simp [List.length_cons] at h1

theorem filter_map_comm {α : Type} (f : α → α) (p : α → Bool)
    (hp : ∀ a, p (f a) = p a) (l : List α) :
    (l.map f).filter p = (l.filter p).map f := by
  rw [List.filter_map]
  exact congrArg (List.map f) (List.filter_congr (fun a _ => hp a))

theorem filter_swap {α : Type} (p q : α → Bool) (l : List α) :
    (l.filter p).filter q = (l.filter q).filter p := by
  simp only [List.filter_filter]
  exact List.filter_congr (fun a _ => Bool.and_comm _ _)

/-! ### The per-(user, target) ledger decomposition -/

theorem getUserVote_eq_head (L : List Vote) (t : String) (tt : TargetType)
    (u : String) :
    getUserVote (votesFor L t tt) u = (userVotesFor L t tt u).head? :=
  find?_eq_head?_filter _ _

theorem userVotesFor_append (L M : List Vote) (t : String) (tt : TargetType)
    (u : String) :
    userVotesFor (L ++ M) t tt u = userVotesFor L t tt u ++ userVotesFor M t tt u := by
  simp [userVotesFor, votesFor, List.filter_append]

theorem userVotesFor_filter (L : List Vote) (q : Vote → Bool) (t : String)
    (tt : TargetType) (u : String) :
    userVotesFor (L.filter q) t tt u = (userVotesFor L t tt u).filter q := by
  unfold userVotesFor votesFor
  rw [filter_swap q _ L, filter_swap q _ (L.filter _)]

theorem userVotesFor_map (L : List Vote) (t : String) (tt : TargetType)
    (u : String) (f : Vote → Vote)
    (hf : ∀ v, (f v).targetId = v.targetId ∧ (f v).targetType = v.targetType
          ∧ (f v).userId = v.userId) :
    userVotesFor (L.map f) t tt u = (userVotesFor L t tt u).map f := by
  unfold userVotesFor votesFor
  rw [filter_map_comm f _ (fun a => by simp [(hf a).1, (hf a).2.1]) L,
      filter_map_comm f _ (fun a => by simp [(hf a).2.2])]

theorem userVotesFor_empty_of_none {L : List Vote} {t : String}
    {tt : TargetType} {u : String}
    (h : getUserVote (votesFor L t tt) u = none) :
    userVotesFor L t tt u = [] := by
  have heq := getUserVote_eq_head L t tt u
  rw [h] at heq
  exact List.head?_eq_none_iff.mp heq.symm

/-- One castVote call moves the (user, target) slice of the ledger exactly
one step of the toggle automaton, keeps the at-most-one invariant, keeps the
vote identifiers duplicate-free, and introduces no identifier other than the
fresh one. -/
theorem castVote_step (L : List Vote) (t : String) (tt : TargetType)
    (u d fid : String)
    (hn : (voteIds L).Nodup) (hf : fid ∉ voteIds L)
    (h1 : (userVotesFor L t tt u).length ≤ 1) :
    (voteIds (castVote L t tt u d fid)).Nodup
    ∧ (∀ i ∈ voteIds (castVote L t tt u d fid), i ∈ voteIds L ∨ i = fid)
    ∧ (userVotesFor (castVote L t tt u d fid) t tt u).length ≤ 1
    ∧ userVoteState (castVote L t tt u d fid) t tt u
        = toggleStep (userVoteState L t tt u) d := by
  cases hobs : getUserVote (votesFor L t tt) u with
  | none =>
    have hemp := userVotesFor_empty_of_none hobs
    have hcast : castVote L t tt u d fid = L ++ [Vote.mk fid u d t tt] := by
      rw [castVote, hobs]
      simp only [handleVote, any_id_eq_false hf, Bool.false_eq_true, if_false]
    have hids : voteIds (L ++ [Vote.mk fid u d t tt]) = voteIds L ++ [fid] := by
      simp [voteIds]
    have huv : userVotesFor (L ++ [Vote.mk fid u d t tt]) t tt u
        = userVotesFor L t tt u ++ [Vote.mk fid u d t tt] := by
      rw [userVotesFor_append]
      congr 1
      simp [userVotesFor, votesFor]
    rw [hcast]
    refine ⟨?_, ?_, ?_, ?_⟩
    · rw [hids]
      refine List.Nodup.append hn (by simp) ?_
      intro x hx hxm
      rcases List.mem_singleton.mp hxm with rfl
      exact hf hx
    · intro i hi
      rw [hids] at hi
      rcases List.mem_append.mp hi with h | h
      · exact Or.inl h
      · exact Or.inr (List.mem_singleton.mp h)
    · rw [huv, hemp]
      simp
    · rw [userVoteState, getUserVote_eq_head, huv, hemp, userVoteState, hobs]
      simp [toggleStep]
  | some ev =>
    have hev := getUserVote_eq_some hobs
    have hmem := mem_votesFor.mp hev.1
    have hevuv : ev ∈ userVotesFor L t tt u :=
      List.mem_filter.mpr ⟨hev.1, decide_eq_true hev.2⟩
    have hsing : userVotesFor L t tt u = [ev] := mem_length_le_one h1 hevuv
    by_cases hvt : ev.voteType = d
    · have hcast : castVote L t tt u d fid
          = L.filter (fun v => decide (v.id ≠ ev.id)) := by
        rw [castVote, hobs]
        simp only [handleVote, hvt, if_true]
      have hidsub : (voteIds (L.filter (fun v => decide (v.id ≠ ev.id)))).Sublist
          (voteIds L) := (List.filter_sublist L).map _
      rw [hcast]
      refine ⟨hidsub.nodup hn, fun i hi => Or.inl (hidsub.subset hi), ?_, ?_⟩
      · rw [userVotesFor_filter, hsing]
        simp
      · rw [userVoteState, getUserVote_eq_head, userVotesFor_filter, hsing,
          userVoteState, hobs]
        simp [toggleStep, hvt]
    · have hcast : castVote L t tt u d fid
          = L.map (fun v => if v.id = ev.id then { v with voteType := d } else v) := by
        rw [castVote, hobs]
        simp only [handleVote, hvt, if_false]
      have hidmap : voteIds
          (L.map (fun v => if v.id = ev.id then { v with voteType := d } else v))
            = voteIds L := by
        simp only [voteIds, List.map_map]
        refine List.map_congr_left fun v _ => ?_
        by_cases h : v.id = ev.id <;> simp [h]
      have hfpres : ∀ v : Vote,
          ((if v.id = ev.id then { v with voteType := d } else v) : Vote).targetId
              = v.targetId
          ∧ ((if v.id = ev.id then { v with voteType := d } else v) : Vote).targetType
              = v.targetType
          ∧ ((if v.id = ev.id then { v with voteType := d } else v) : Vote).userId
              = v.userId := by
        intro v
        by_cases h : v.id = ev.id <;> simp [h]
      have huv : userVotesFor
          (L.map (fun v => if v.id = ev.id then { v with voteType := d } else v)) t tt u
            = [{ ev with voteType := d }] := by
        rw [userVotesFor_map L t tt u _ hfpres, hsing]
        simp
      rw [hcast]
      refine ⟨by rw [hidmap]; exact hn, fun i hi => Or.inl (by rwa [hidmap] at hi),
        by rw [huv]; simp, ?_⟩
      rw [userVoteState, getUserVote_eq_head, huv, userVoteState, hobs]
      simp [toggleStep, hvt]

/-- The sequence invariant behind claim C2, by induction over the calls. -/
theorem castVoteSeq_invariant (t : String) (tt : TargetType) (u : String) :
    ∀ (steps : List (String × String)) (L : List Vote),
      (voteIds L).Nodup →
      (∀ s ∈ steps, s.2 ∉ voteIds L) →
      (steps.map Prod.snd).Nodup →
      (userVotesFor L t tt u).length ≤ 1 →
      (voteIds (castVoteSeq L t tt u steps)).Nodup
      ∧ (∀ i ∈ voteIds (castVoteSeq L t tt u steps),
            i ∈ voteIds L ∨ i ∈ steps.map Prod.snd)
      ∧ (userVotesFor (castVoteSeq L t tt u steps) t tt u).length ≤ 1
      ∧ userVoteState (castVoteSeq L t tt u steps) t tt u
          = (steps.map Prod.fst).foldl toggleStep (userVoteState L t tt u) := by
  intro steps
  induction steps with
  | nil =>
    intro L hn _ _ h1
    exact ⟨hn, fun i hi => Or.inl hi, h1, rfl⟩
  | cons s rest ih =>
    intro L hn hfr hfd h1
    obtain ⟨d, fid⟩ := s
    have hf : fid ∉ voteIds L := hfr _ (List.mem_cons_self _ _)
    obtain ⟨sn, sids, s1, sst⟩ := castVote_step L t tt u d fid hn hf h1
    have hfdc : (fid :: rest.map Prod.snd).Nodup := by simpa using hfd
    have hfr2 : ∀ s2 ∈ rest, s2.2 ∉ voteIds (castVote L t tt u d fid) := by
      intro s2 hs2 hmem2
      rcases sids _ hmem2 with h | h
      · exact hfr s2 (List.mem_cons_of_mem _ hs2) h
      · have hm : s2.2 ∈ rest.map Prod.snd := List.mem_map.mpr ⟨s2, hs2, rfl⟩
        rw [h] at hm
        exact (List.nodup_cons.mp hfdc).1 hm
    obtain ⟨rn, rids, r1, rst⟩ := ih (castVote L t tt u d fid) sn hfr2
      (List.nodup_cons.mp hfdc).2 s1
    simp only [castVoteSeq]
    refine ⟨rn, ?_, r1, ?_⟩
    · intro i hi
      rcases rids i hi with h | h
      · rcases sids i h with h2 | h2
        · exact Or.inl h2
        · exact Or.inr (by simp [h2])
      · refine Or.inr ?_
        have : i ∈ ((d, fid) :: rest).map Prod.snd :=
          List.mem_cons_of_mem _ h
        simpa using this
    · rw [rst, sst]
      simp

/-! ### Claim C2: at most one vote, following the toggle automaton -/

/-- Claim C2: for every user, target and finite sequence of castVote calls in
which each call is conditioned on the vote state left by the previous call
(each step supplies its direction and the fresh identifier its `id()` call
produces), the resulting ledger holds at most one Vote for the (user, target)
pair, and that vote's voteType — or its absence — is the state reached by
running the directions through the three-state toggle automaton
(no-vote / upvoted / downvoted). -/
theorem vote_ledger_three_state_automaton (L : List Vote) (t : String)
    (tt : TargetType) (u : String) (steps : List (String × String))
    (hn : (voteIds L).Nodup)
    (hfr : ∀ s ∈ steps, s.2 ∉ voteIds L)
    (hfd : (steps.map Prod.snd).Nodup)
    (h1 : (userVotesFor L t tt u).length ≤ 1)
    (_hdirs : ∀ s ∈ steps, s.1 = "up" ∨ s.1 = "down") :
    (userVotesFor (castVoteSeq L t tt u steps) t tt u).length ≤ 1
    ∧ userVoteState (castVoteSeq L t tt u steps) t tt u
        = (steps.map Prod.fst).foldl toggleStep (userVoteState L t tt u) := by
  obtain ⟨_, _, h3, h4⟩ := castVoteSeq_invariant t tt u steps L hn hfr hfd h1
  exact ⟨h3, h4⟩

/-- Witness for C2: up, up, down from the empty ledger — the automaton ends
at downvoted and the ledger agrees. -/
theorem vote_ledger_three_state_automaton_witness :
    (userVotesFor (castVoteSeq [] "p1" TargetType.post "u1"
        [("up", "v1"), ("up", "v2"), ("down", "v3")]) "p1" TargetType.post "u1").length ≤ 1
    ∧ userVoteState (castVoteSeq [] "p1" TargetType.post "u1"
        [("up", "v1"), ("up", "v2"), ("down", "v3")]) "p1" TargetType.post "u1"
        = ([("up", "v1"), ("up", "v2"), ("down", "v3")].map Prod.fst).foldl toggleStep
            (userVoteState [] "p1" TargetType.post "u1") :=
  vote_ledger_three_state_automaton [] "p1" TargetType.post "u1"
    [("up", "v1"), ("up", "v2"), ("down", "v3")]
    (by decide) (by decide) (by decide) (by decide) (by decide)

/-! ### Claim C9: concurrent first votes from two replicas -/

/-- Counterexample to C9 as stated: both replicas observe no vote for
(u1, p1) on the empty ledger and cast up-votes; after both committed
transactions reach the store, the ledger holds two Vote entities for the
pair, not exactly one. -/
theorem converge_counterexample :
    getUserVote (votesFor [] "p1" TargetType.post) "u1" = none
    ∧ (userVotesFor
        (converge2 [] "p1" TargetType.post "u1" "up" none none "vA" "vB")
        "p1" TargetType.post "u1").length = 2 := by
  constructor <;> rfl

/-- Claim C9 amended: when two replicas each execute castVote for the same
(userId, targetId) pair with direction up, both having observed no prior
vote, then after the replicas converge exactly TWO Vote entities for that
pair exist — one per replica-generated identifier, in either delivery order.
The source enforces no uniqueness constraint on (userId, targetId). -/
theorem converge_two_votes (L : List Vote) (t : String) (tt : TargetType)
    (u d fidA fidB : String)
    (hA : getUserVote (votesFor L t tt) u = none)
    (hfA : fidA ∉ voteIds L) (hfB : fidB ∉ voteIds L) (hAB : fidA ≠ fidB) :
    (userVotesFor (converge2 L t tt u d none none fidA fidB) t tt u).length = 2
    ∧ (userVotesFor (converge2 L t tt u d none none fidB fidA) t tt u).length = 2 := by
  have hemp := userVotesFor_empty_of_none hA
  have key : ∀ fa fb : String, fa ∉ voteIds L → fb ∉ voteIds L → fa ≠ fb →
      (userVotesFor (converge2 L t tt u d none none fa fb) t tt u).length = 2 := by
    intro fa fb hfa hfb hne
    have h1 : handleVote L t u d tt none fa = L ++ [Vote.mk fa u d t tt] := by
      simp only [handleVote, any_id_eq_false hfa, Bool.false_eq_true, if_false]
    have h2 : (L ++ [Vote.mk fa u d t tt]).any (fun v => decide (v.id = fb)) = false := by
      rw [List.any_eq_false]
      intro v hv
      rcases List.mem_append.mp hv with h | h
      · intro hd
        exact hfb (mem_voteIds.mpr ⟨v, h, of_decide_eq_true hd⟩)
      · rcases List.mem_singleton.mp h with rfl
        simp [hne]
    have hconv : converge2 L t tt u d none none fa fb
        = L ++ [Vote.mk fa u d t tt] ++ [Vote.mk fb u d t tt] := by
      rw [converge2, h1]
      simp only [handleVote, h2, Bool.false_eq_true, if_false]
    rw [hconv, userVotesFor_append, userVotesFor_append, hemp]
    simp [userVotesFor, votesFor]
  exact ⟨key fidA fidB hfA hfB hAB, key fidB fidA hfB hfA (Ne.symm hAB)⟩

/-- Witness for C9 amended at the concrete scenario of the spec. -/
theorem converge_two_votes_witness :
    (userVotesFor (converge2 [] "p1" TargetType.post "u1" "up" none none "vA" "vB")
        "p1" TargetType.post "u1").length = 2
    ∧ (userVotesFor (converge2 [] "p1" TargetType.post "u1" "up" none none "vB" "vA")
        "p1" TargetType.post "u1").length = 2 :=
  converge_two_votes [] "p1" TargetType.post "u1" "up" "vA" "vB"
    rfl (by decide) (by decide) (by decide)

/-! ### The array variant (src/src/app/page.tsx) -/

/-- A `posts` row of the array variant: the schema fields
(src/src/instant.schema.ts lines 7-12) plus the schemaless `upvotes` /
`downvotes` arrays page.tsx writes; the arrays may be absent (the code reads
them as `(post.upvotes as string[]) || []`), hence `Option`. -/
structure PostA where
  id : String
  title : String
  body : String
  authorId : String
  timestamp : Nat
  upvotes : Option (List String)
  downvotes : Option (List String)
deriving DecidableEq

/-- A `comments` row of the array variant: schema fields
(src/src/instant.schema.ts lines 13-18) plus the `upvotes` / `downvotes`
arrays.  `parentCommentId` is optional; `...(parentCommentId && {...})` in
the comment forms means an empty string is never stored. -/
structure CommentA where
  id : String
  text : String
  authorId : String
  timestamp : Nat
  parentCommentId : Option String
  upvotes : Option (List String)
  downvotes : Option (List String)
deriving DecidableEq

/-- The vote-array update shared verbatim by `handlePostVote`
(src/src/app/page.tsx lines 426-439) and `handleCommentVote` (lines
451-464): record whether the user was in each array, remove the user from
both arrays, then append the user to the chosen array unless the user was
already there. -/
def updatedVoteArrays (upvotes0 downvotes0 : List String) (userId ty : String) :
    List String × List String :=
  let wasUpvoted := upvotes0.contains userId
  let wasDownvoted := downvotes0.contains userId
  let upvotes := upvotes0.filter (fun i => decide (i ≠ userId))
  let downvotes := downvotes0.filter (fun i => decide (i ≠ userId))
  if ty = "up" ∧ wasUpvoted = false then
    (upvotes ++ [userId], downvotes)
  else if ty = "down" ∧ wasDownvoted = false then
    (upvotes, downvotes ++ [userId])
  else
    (upvotes, downvotes)

/-- Embeds `handlePostVote` (src/src/app/page.tsx lines 421-444).  The
`queryOnce` lookup is the `find?` over the posts table; `if (!post) return;`
is the `none` branch, which leaves the table unchanged and reports nothing
(the second component is the surfaced error: the function never throws, so
it is `none` on every path).  `db.tx.posts[postId].update({upvotes,
downvotes})` writes the two arrays to the row keyed `postId`. -/
def handlePostVote (posts : List PostA) (postId userId ty : String) :
    List PostA × Option String :=
  match posts.find? (fun p => decide (p.id = postId)) with
  | none => (posts, none)
  | some post =>
    let arrays := updatedVoteArrays (post.upvotes.getD []) (post.downvotes.getD []) userId ty
    (posts.map (fun p =>
        if p.id = postId then
          { p with upvotes := some arrays.1, downvotes := some arrays.2 }
        else p),
      none)

/-- Embeds `handleCommentVote` (src/src/app/page.tsx lines 446-469),
identical to `handlePostVote` but against the comments table. -/
def handleCommentVote (comments : List CommentA) (commentId userId ty : String) :
    List CommentA × Option String :=
  match comments.find? (fun c => decide (c.id = commentId)) with
  | none => (comments, none)
  | some comment =>
    let arrays := updatedVoteArrays (comment.upvotes.getD []) (comment.downvotes.getD []) userId ty
    (comments.map (fun c =>
        if c.id = commentId then
          { c with upvotes := some arrays.1, downvotes := some arrays.2 }
        else c),
      none)

/-! ### Comment display reconstruction -/

/-- The root test of `PostDetail` (src/src/app/page.tsx line 132 and
src/unnamed/part_000 line 218): `!c.parentCommentId`, true when the field is
absent or (vacuously for stored data) the empty string. -/
def isTopLevel (c : CommentA) : Bool :=
  match c.parentCommentId with
  | none => true
  | some s => s.isEmpty

/-- `topLevelComments` of `PostDetail`: the comments of the post whose
parentCommentId is falsy. -/
def topLevelComments (cs : List CommentA) : List CommentA :=
  cs.filter isTopLevel

/-- The `replies` list of `CommentThread` (src/src/app/page.tsx line 185 and
src/unnamed/part_000 line 303): the comments whose `parentCommentId` equals
the given comment id. -/
def repliesOf (cs : List CommentA) (commentId : String) : List CommentA :=
  cs.filter (fun c => decide (c.parentCommentId = some commentId))

/-- The comment structure the page actually renders: each top-level comment
paired with its direct replies.  `CommentThread` renders each reply inline
(src/src/app/page.tsx lines 219-240, src/unnamed/part_000 lines 337-358)
without mounting a nested `CommentThread`, so nothing below the second level
appears. -/
def commentForest (cs : List CommentA) : List (CommentA × List CommentA) :=
  (topLevelComments cs).map (fun c => (c, repliesOf cs c.id))

/-- How many times the comment with the given id occurs in the rendered
forest (as a top-level comment plus once per reply list containing it). -/
def forestOccurrences (cs : List CommentA) (cid : String) : Nat :=
  ((topLevelComments cs).filter (fun c => decide (c.id = cid))).length
    + ((topLevelComments cs).map
        (fun r => ((repliesOf cs r.id).filter (fun c => decide (c.id = cid))).length)).sum

/-! ### Counting occurrences in the rendered forest -/

theorem sum_map_ite_eq_countP {α : Type} (l : List α) (p : α → Bool) :
    (l.map (fun a => if p a then (1 : Nat) else 0)).sum = l.countP p := by
  induction l with
  | nil => rfl
  | cons a l ih =>
    by_cases h : p a
    · simp [List.countP_cons, ih, h]
      omega
    · simp [List.countP_cons, ih, h]

theorem countP_id_and (pid : String) (p : CommentA → Bool) :
    ∀ cs : List CommentA, (cs.map (fun x => x.id)).Nodup →
      cs.countP (fun x => decide (x.id = pid) && p x)
        = match cs.find? (fun x => decide (x.id = pid)) with
          | none => 0
          | some y => if p y then 1 else 0 := by
  intro cs
  induction cs with
  | nil => intro _; rfl
  | cons a rest ih =>
    intro hn
    rw [List.map_cons, List.nodup_cons] at hn
    by_cases ha : a.id = pid
    · have hfind : (a :: rest).find? (fun x => decide (x.id = pid)) = some a := by
        rw [List.find?_cons]
        simp [ha]
      have hrest : rest.countP (fun x => decide (x.id = pid) && p x) = 0 := by
        rw [List.countP_eq_zero]
        intro x hx
        simp only [Bool.and_eq_true, decide_eq_true_eq, not_and]
        intro hxid _
        exact hn.1 (List.mem_map.mpr ⟨x, hx, hxid.trans ha.symm⟩)
      rw [List.countP_cons, hrest, hfind]
      simp [ha]
    · have hfind : (a :: rest).find? (fun x => decide (x.id = pid))
          = rest.find? (fun x => decide (x.id = pid)) := by
        rw [List.find?_cons]
        simp [ha]
      rw [List.countP_cons, hfind, ih hn.2]
      simp [ha]

theorem find?_id_self {cs : List CommentA} {c : CommentA}
    (hn : (cs.map (fun x => x.id)).Nodup) (hc : c ∈ cs) :
    cs.find? (fun x => decide (x.id = c.id)) = some c := by
  cases h : cs.find? (fun x => decide (x.id = c.id)) with
  | none => exact absurd (decide_eq_true rfl) (List.find?_eq_none.mp h c hc)
  | some y =>
    have hy : y.id = c.id := by
      have h2 := List.find?_some h
      simpa using h2
    have hym : y ∈ cs := List.mem_of_find?_eq_some h
    rw [List.inj_on_of_nodup_map hn hym hc hy]

/-- The exact occurrence count of a comment in the rendered two-level
forest: once as a top-level comment if its parent field is falsy, plus once
under the comment its parent field names, if that comment exists and is
itself top-level. -/
theorem forestOccurrences_eq (cs : List CommentA) (c : CommentA)
    (hn : (cs.map (fun x => x.id)).Nodup) (hc : c ∈ cs) :
    forestOccurrences cs c.id
      = (if isTopLevel c then 1 else 0)
        + (match c.parentCommentId with
           | none => 0
           | some pid =>
             match cs.find? (fun x => decide (x.id = pid)) with
             | none => 0
             | some y => if isTopLevel y then 1 else 0) := by
  have hroot : ((topLevelComments cs).filter (fun x => decide (x.id = c.id))).length
      = if isTopLevel c then 1 else 0 := by
    rw [← List.countP_eq_length_filter]
    have h1 : (topLevelComments cs).countP (fun x => decide (x.id = c.id))
        = cs.countP (fun x => decide (x.id = c.id) && isTopLevel x) := by
      rw [topLevelComments, List.countP_eq_length_filter, List.filter_filter,
        ← List.countP_eq_length_filter]
    rw [h1, countP_id_and c.id isTopLevel cs hn, find?_id_self hn hc]
  have hinner : ∀ r : CommentA,
      ((repliesOf cs r.id).filter (fun x => decide (x.id = c.id))).length
        = if decide (c.parentCommentId = some r.id) then (1 : Nat) else 0 := by
    intro r
    rw [← List.countP_eq_length_filter]
    have h1 : (repliesOf cs r.id).countP (fun x => decide (x.id = c.id))
        = cs.countP (fun x => decide (x.id = c.id)
            && decide (x.parentCommentId = some r.id)) := by
      rw [repliesOf, List.countP_eq_length_filter, List.filter_filter,
        ← List.countP_eq_length_filter]
    rw [h1, countP_id_and c.id _ cs hn, find?_id_self hn hc]
  have hsum : ((topLevelComments cs).map
      (fun r => ((repliesOf cs r.id).filter (fun x => decide (x.id = c.id))).length)).sum
        = (topLevelComments cs).countP
            (fun r => decide (c.parentCommentId = some r.id)) := by
    rw [List.map_congr_left (fun r _ => hinner r)]
    exact sum_map_ite_eq_countP _ _
  rw [forestOccurrences, hroot, hsum]
  congr 1
  have h2 : (topLevelComments cs).countP (fun r => decide (c.parentCommentId = some r.id))
      = cs.countP (fun x => decide (c.parentCommentId = some x.id) && isTopLevel x) := by
    rw [topLevelComments, List.countP_eq_length_filter, List.filter_filter,
      ← List.countP_eq_length_filter]
  rw [h2]
  cases hp : c.parentCommentId with
  | none => simp
  | some pid =>
    have h3 : cs.countP
        (fun x => decide ((some pid : Option String) = some x.id) && isTopLevel x)
          = cs.countP (fun x => decide (x.id = pid) && isTopLevel x) :=
      List.countP_congr (fun x _ => by
        simp only [Bool.and_eq_true, decide_eq_true_eq, Option.some.injEq]
        constructor
        · rintro ⟨h1, h2⟩
          exact ⟨h1.symm, h2⟩
        · rintro ⟨h1, h2⟩
          exact ⟨h1.symm, h2⟩)
    rw [h3, countP_id_and pid isTopLevel cs hn]

/-- With the stored-data invariant that `parentCommentId` is never the empty
string, the falsy root test is exactly absence of the field. -/
theorem isTopLevel_iff_none {c : CommentA} (hne : c.parentCommentId ≠ some "") :
    isTopLevel c = true ↔ c.parentCommentId = none := by
  cases hp : c.parentCommentId with
  | none => simp [isTopLevel, hp]
  | some s =>
    have hs : ¬ s.isEmpty = true := by
      intro h
      rw [hp] at hne
      exact hne (by rw [(String.isEmpty_iff s).mp h])
    simp [isTopLevel, hp, hs]

/-! ### Claim C4: totality of the reconstruction -/

def c4one : CommentA :=
  { id := "c1", text := "one", authorId := "a1", timestamp := 1,
    parentCommentId := none, upvotes := none, downvotes := none }

def c4two : CommentA :=
  { id := "c2", text := "two", authorId := "a1", timestamp := 2,
    parentCommentId := some "c1", upvotes := none, downvotes := none }

def c4three : CommentA :=
  { id := "c3", text := "three", authorId := "a1", timestamp := 3,
    parentCommentId := some "missing-id", upvotes := none, downvotes := none }

/-- Counterexample to C4 as stated: in the comment set of the end-to-end
scenario of spec section 8 — roots should be c1 and c3 with c3 an orphan —
the code surfaces only c1 as a root and drops c3 entirely: it occurs zero
times in the rendered forest instead of once as a root. -/
theorem commentForest_counterexample :
    topLevelComments [c4one, c4two, c4three] = [c4one]
    ∧ forestOccurrences [c4one, c4two, c4three] "c3" = 0 := by
  constructor <;> rfl

/-- Claim C4 amended: for a comment set with distinct identifiers and no
empty-string parent references, a comment appears in the reconstructed
forest exactly once when it is a root or a direct child of a root, and zero
times otherwise — in particular an orphan, whose declared parentCommentId
identifies no comment of the set, is dropped rather than surfaced as a
root. -/
theorem commentForest_membership (cs : List CommentA) (c : CommentA)
    (hn : (cs.map (fun x => x.id)).Nodup)
    (hne : ∀ x ∈ cs, x.parentCommentId ≠ some "")
    (hc : c ∈ cs) :
    ((isTopLevel c = true
        ∨ ∃ r ∈ cs, isTopLevel r = true ∧ c.parentCommentId = some r.id) →
      forestOccurrences cs c.id = 1)
    ∧ ((isTopLevel c = false
        ∧ ∀ r ∈ cs, ¬(isTopLevel r = true ∧ c.parentCommentId = some r.id)) →
      forestOccurrences cs c.id = 0) := by
  have hmain := forestOccurrences_eq cs c hn hc
  constructor
  · rintro (htop | ⟨r, hr, hrtop, hpar⟩)
    · have hnone : c.parentCommentId = none := (isTopLevel_iff_none (hne c hc)).mp htop
      rw [hmain]
      simp [htop, hnone]
    · have hct : isTopLevel c = false := by
        refine Bool.eq_false_iff.mpr (fun h => ?_)
        have hx := (isTopLevel_iff_none (hne c hc)).mp h
        rw [hpar] at hx
        exact Option.noConfusion hx
      have hfind : cs.find? (fun x => decide (x.id = r.id)) = some r :=
        find?_id_self hn hr
      rw [hmain]
      simp [hct, hpar, hfind, hrtop]
  · rintro ⟨hcf, hnor⟩
    obtain ⟨pid, hpid⟩ : ∃ pid, c.parentCommentId = some pid := by
      cases hp : c.parentCommentId with
      | none => rw [isTopLevel, hp] at hcf; cases hcf
      | some pid => exact ⟨pid, rfl⟩
    rw [hmain]
    cases hfind : cs.find? (fun x => decide (x.id = pid)) with
    | none => simp [hcf, hpid, hfind]
    | some y =>
      have hym : y ∈ cs := List.mem_of_find?_eq_some hfind
      have hyid : y.id = pid := by
        have h2 := List.find?_some hfind
        simpa using h2
      have hyt : isTopLevel y = false := by
        refine Bool.eq_false_iff.mpr (fun h => ?_)
        exact hnor y hym ⟨h, by rw [hpid, hyid]⟩
      simp [hcf, hpid, hfind, hyt]

/-- Witness for C4 amended: the reply c2 under root c1 occurs once. -/
theorem commentForest_membership_witness :
    forestOccurrences [c4one, c4two, c4three] c4two.id = 1 :=
  (commentForest_membership [c4one, c4two, c4three] c4two
      (by decide) (by decide) (by decide)).1
    (Or.inr ⟨c4one, by decide, by decide, by decide⟩)

/-! ### Claim C6: depth of the reconstruction -/

def c6Root : CommentA :=
  { id := "c1", text := "root", authorId := "a1", timestamp := 1,
    parentCommentId := none, upvotes := none, downvotes := none }

def c6Mid : CommentA :=
  { id := "c2", text := "mid", authorId := "a1", timestamp := 2,
    parentCommentId := some "c1", upvotes := none, downvotes := none }

def c6Leaf : CommentA :=
  { id := "c3", text := "leaf", authorId := "a1", timestamp := 3,
    parentCommentId := some "c2", upvotes := none, downvotes := none }

/-- Counterexample to C6 as stated: in the chain c1 ← c2 ← c3, comment c3 is
the declared child of c2 (a parent chain of finite length), yet it appears
nowhere in the rendered forest — the construction stops at the direct
children of the roots. -/
theorem commentForest_depth_counterexample :
    repliesOf [c6Root, c6Mid, c6Leaf] "c2" = [c6Leaf]
    ∧ forestOccurrences [c6Root, c6Mid, c6Leaf] "c3" = 0 := by
  constructor <;> rfl

/-- Claim C6 amended: the reconstruction is total as a function (it is a
non-recursive pair of filters, so it cannot fail at any depth), and it
carries exactly two levels: every top-level comment node carries all its
direct children, while a comment whose declared parent is itself a non-root
appears nowhere in the rendered forest. -/
theorem commentForest_two_levels (cs : List CommentA)
    (hn : (cs.map (fun x => x.id)).Nodup)
    (hne : ∀ x ∈ cs, x.parentCommentId ≠ some "") :
    (∀ r ∈ cs, isTopLevel r = true →
        (r, repliesOf cs r.id) ∈ commentForest cs
        ∧ ∀ c ∈ cs, c.parentCommentId = some r.id → c ∈ repliesOf cs r.id)
    ∧ (∀ c ∈ cs, ∀ q ∈ cs, c.parentCommentId = some q.id →
        isTopLevel q = false → forestOccurrences cs c.id = 0) := by
  constructor
  · intro r hr hrtop
    constructor
    · exact List.mem_map.mpr ⟨r, List.mem_filter.mpr ⟨hr, hrtop⟩, rfl⟩
    · intro c hcm hpar
      exact List.mem_filter.mpr ⟨hcm, decide_eq_true hpar⟩
  · intro c hcm q hqm hpar hqt
    have hmain := forestOccurrences_eq cs c hn hcm
    have hct : isTopLevel c = false := by
      refine Bool.eq_false_iff.mpr (fun h => ?_)
      have hx := (isTopLevel_iff_none (hne c hcm)).mp h
      rw [hpar] at hx
      exact Option.noConfusion hx
    have hfind : cs.find? (fun x => decide (x.id = q.id)) = some q :=
      find?_id_self hn hqm
    rw [hmain]
    simp [hct, hpar, hfind, hqt]

/-- Witness for C6 amended: in the chain c1 ← c2 ← c3 the depth-three
comment c3 occurs zero times. -/
theorem commentForest_two_levels_witness :
    forestOccurrences [c6Root, c6Mid, c6Leaf] c6Leaf.id = 0 :=
  (commentForest_two_levels [c6Root, c6Mid, c6Leaf] (by decide) (by decide)).2
    c6Leaf (by decide) c6Mid (by decide) (by decide) (by decide)

/-! ### Claim C7: sibling ordering -/

def c7First : CommentA :=
  { id := "a", text := "older", authorId := "u1", timestamp := 50,
    parentCommentId := none, upvotes := none, downvotes := none }

def c7Second : CommentA :=
  { id := "b", text := "newer", authorId := "u1", timestamp := 30,
    parentCommentId := none, upvotes := none, downvotes := none }

/-- Counterexample to C7 as stated: with the post's comment list arriving as
[timestamp 50, timestamp 30], the sibling group of top-level comments is not
ordered by creation timestamp ascending — the code never sorts, it only
filters. -/
theorem siblingOrder_counterexample :
    ¬ List.Pairwise (fun a b : CommentA => a.timestamp ≤ b.timestamp)
        (topLevelComments [c7First, c7Second]) := by
  intro h
  have h50 : (50 : Nat) ≤ 30 := by
    have hmem : c7Second ∈ topLevelComments [c7First, c7Second] := by decide
    have hhead : topLevelComments [c7First, c7Second]
        = c7First :: topLevelComments [c7Second] := by decide
    rw [hhead] at h
    exact (List.pairwise_cons.mp h).1 c7Second (by decide)
  omega

/-- Claim C7 amended: the code applies no sort; each sibling group (the
top-level comments, and every reply list) preserves the relative order of
the input comment list, so it is timestamp-ascending exactly when the input
list already is. -/
theorem siblingOrder_follows_input (cs : List CommentA) (cid : String) :
    (topLevelComments cs).Sublist cs
    ∧ (repliesOf cs cid).Sublist cs
    ∧ (List.Pairwise (fun a b : CommentA => a.timestamp ≤ b.timestamp) cs →
        List.Pairwise (fun a b : CommentA => a.timestamp ≤ b.timestamp)
          (topLevelComments cs)
        ∧ List.Pairwise (fun a b : CommentA => a.timestamp ≤ b.timestamp)
          (repliesOf cs cid)) := by
  refine ⟨List.filter_sublist cs, List.filter_sublist cs, fun h => ⟨?_, ?_⟩⟩
  · exact List.Pairwise.sublist (List.filter_sublist cs) h
  · exact List.Pairwise.sublist (List.filter_sublist cs) h

/-- Witness for C7 amended at a concrete sorted input. -/
theorem siblingOrder_follows_input_witness :
    List.Pairwise (fun a b : CommentA => a.timestamp ≤ b.timestamp)
        (topLevelComments [c7Second, c7First])
      ∧ List.Pairwise (fun a b : CommentA => a.timestamp ≤ b.timestamp)
        (repliesOf [c7Second, c7First] "a") :=
  (siblingOrder_follows_input [c7Second, c7First] "a").2.2
    (by simp [c7First, c7Second])

/-! ### Claim C8: behaviour on an absent vote target -/

def c8Post : PostA :=
  { id := "p1", title := "T", body := "B", authorId := "a1", timestamp := 0,
    upvotes := some [], downvotes := some [] }

/-- Counterexample to C8 as stated: voting on a target id absent from the
graph applies no mutation, but no NotFoundError is surfaced either — the
error component is `none` (the source reads `if (!post) return;`), so the
failure is silently swallowed, contradicting the claim. -/
theorem voteTargetAbsent_counterexample :
    (handlePostVote [c8Post] "missing" "u1" "up").2 = none
    ∧ (handlePostVote [c8Post] "missing" "u1" "up").1 = [c8Post] := by
  constructor <;> rfl

/-- Claim C8 amended: when a vote operation references a target identifier
absent from the table, no mutation is applied, and the operation silently
returns without surfacing any error to the caller. -/
theorem voteTargetAbsent_silent (posts : List PostA) (comments : List CommentA)
    (postId commentId userId ty : String)
    (hp : posts.find? (fun p => decide (p.id = postId)) = none)
    (hc : comments.find? (fun c => decide (c.id = commentId)) = none) :
    handlePostVote posts postId userId ty = (posts, none)
    ∧ handleCommentVote comments commentId userId ty = (comments, none) := by
  constructor
  · unfold handlePostVote
    rw [hp]
  · unfold handleCommentVote
    rw [hc]

/-- Witness for C8 amended at concrete absent identifiers. -/
theorem voteTargetAbsent_silent_witness :
    handlePostVote [c8Post] "nope" "u1" "down" = ([c8Post], none)
    ∧ handleCommentVote [] "nope" "u1" "down" = ([], none) :=
  voteTargetAbsent_silent [c8Post] [] "nope" "nope" "u1" "down"
    (by decide) (by decide)

/-! ### Claim C10: the user occurs at most once across both arrays -/

theorem count_filter_ne_self (l : List String) (u : String) :
    (l.filter (fun i => decide (i ≠ u))).count u = 0 := by
  rw [List.count_eq_zero]
  intro hmem
  exact (of_decide_eq_true (List.mem_filter.mp hmem).2) rfl

theorem updatedVoteArrays_count_le_one (up dn : List String) (u ty : String) :
    (updatedVoteArrays up dn u ty).1.count u
      + (updatedVoteArrays up dn u ty).2.count u ≤ 1 := by
  have h1 := count_filter_ne_self up u
  have h2 := count_filter_ne_self dn u
  simp only [ne_eq, decide_not] at h1 h2
  simp only [updatedVoteArrays]
  split_ifs <;> simp [List.count_append, h1, h2]

/-- Claim C10: after any single `handlePostVote` (or `handleCommentVote`)
call, every row carrying the voted target id has the voting user in at most
one position across the union of its upvotes and downvotes arrays — the user
is first removed from both arrays and then appended to at most one — for
every prior content of those arrays, including duplicates or presence in
both. -/
theorem voteArrays_user_at_most_once (posts : List PostA)
    (comments : List CommentA) (postId commentId userId ty : String) :
    (∀ p ∈ (handlePostVote posts postId userId ty).1, p.id = postId →
        (p.upvotes.getD []).count userId + (p.downvotes.getD []).count userId ≤ 1)
    ∧ (∀ c ∈ (handleCommentVote comments commentId userId ty).1, c.id = commentId →
        (c.upvotes.getD []).count userId + (c.downvotes.getD []).count userId ≤ 1) := by
  constructor
  · intro p hp hpid
    unfold handlePostVote at hp
    cases hfind : posts.find? (fun q => decide (q.id = postId)) with
    | none =>
      rw [hfind] at hp
      exact absurd (decide_eq_true hpid) (List.find?_eq_none.mp hfind p hp)
    | some post =>
      rw [hfind] at hp
      rcases List.mem_map.mp hp with ⟨orig, horig, rfl⟩
      by_cases h : orig.id = postId
      · simp only [h, if_true, Option.getD_some]
        exact updatedVoteArrays_count_le_one _ _ _ _
      · rw [if_neg h] at hpid ⊢
        exact absurd hpid h
  · intro c hc hcid
    unfold handleCommentVote at hc
    cases hfind : comments.find? (fun q => decide (q.id = commentId)) with
    | none =>
      rw [hfind] at hc
      exact absurd (decide_eq_true hcid) (List.find?_eq_none.mp hfind c hc)
    | some comment =>
      rw [hfind] at hc
      rcases List.mem_map.mp hc with ⟨orig, horig, rfl⟩
      by_cases h : orig.id = commentId
      · simp only [h, if_true, Option.getD_some]
        exact updatedVoteArrays_count_le_one _ _ _ _
      · rw [if_neg h] at hcid ⊢
        exact absurd hcid h

/-- Witness for C10 at a polluted prior state: the user already sits in both
arrays, twice in one of them. -/
theorem voteArrays_user_at_most_once_witness :
    ∀ p ∈ (handlePostVote
        [{ id := "p1", title := "T", body := "B", authorId := "a1",
           timestamp := 0, upvotes := some ["u1", "u2", "u1"],
           downvotes := some ["u1"] }] "p1" "u1" "up").1,
      p.id = "p1" →
        (p.upvotes.getD []).count "u1" + (p.downvotes.getD []).count "u1" ≤ 1 :=
  (voteArrays_user_at_most_once
    [{ id := "p1", title := "T", body := "B", authorId := "a1",
       timestamp := 0, upvotes := some ["u1", "u2", "u1"],
       downvotes := some ["u1"] }] [] "p1" "c" "u1" "up").1

end InstaReddit
